import Mathlib

/-!
Shallow embedding of the message routing and durability core of
`src/main.py` (a FastAPI/MongoDB messaging server), together with proofs
about the chunked conversation log, the pending-delivery queue, the
connection registry, the router's dispatch logic, and the on-connect drain.

Modelling conventions:
* MongoDB collections are insertion-ordered lists of documents
  (`List ChatChunk` for `messages`, `List Message` for `undelivered`);
  `find` is `List.filter`, `insert_one` appends, `update_one`/`delete_one`
  act on the first matching document, matching by the filtered fields.
* The Python `dict` `current_connections` is an insertion-ordered
  association list; assignment replaces in place, `.get` is first lookup,
  `.pop(key)` (no default) returns `none` to model the `KeyError` raised
  when the key is absent.
* Websocket handles are opaque `Nat`s.  The outcome of an `await
  websocket.send_json` is external nondeterminism, supplied as a
  `SendOutcome` oracle value per attempted send: it either succeeds,
  raises `WebSocketDisconnect`, raises `RuntimeError`, or raises some
  other exception (the three `except` arms of `forward_message`).
* Uncaught Python exceptions are modelled as `Except.error (name, st)`
  where `st` is the global state at the moment the exception escapes
  (global mutations made before the exception persist).
* Python's `sorted(chunks, key=lambda x: x.chunk_id)` is a stable
  ascending sort; it is embedded as a structurally recursive stable
  insertion sort `sortChunks` (extensionally equal to any stable
  ascending sort, and reducible by the kernel).
* `datetime` values are `Nat` timestamps.
-/

namespace MessagingServer

/-- The `Message` pydantic model of `src/main.py`: sender, recipient,
conversation id, body, timestamp. -/
structure Message where
  sent_by : String
  sent_to : String
  chat_id : String
  message : String
  timestamp : Nat
deriving DecidableEq, Repr

/-- The `ChatChunk` pydantic model: one page of a conversation's log. -/
structure ChatChunk where
  chat_id : String
  chunk_id : Nat
  messages : List Message
deriving DecidableEq, Repr

/-- The `ConnectionManager.current_connections` dict: username ↦ websocket
handle, as an insertion-ordered association list. -/
abbrev Registry := List (String × Nat)

/-- Model of `current_connections.get(u)`: first (and, for a dict, only) binding. -/
def lookupConn : Registry → String → Option Nat
  | [], _ => none
  | (k, v) :: rest, u => if k = u then some v else lookupConn rest u

/-- Model of `ConnectionManager.add_connection`: dict assignment
`current_connections[username] = websocket` — replaces in place if the key
is present, otherwise appends a new binding. -/
def add_connection : Registry → String → Nat → Registry
  | [], u, ch => [(u, ch)]
  | (k, v) :: rest, u, ch =>
    if k = u then (k, ch) :: rest else (k, v) :: add_connection rest u ch

/-- Model of `ConnectionManager.remove_connection`, i.e. `current_connections.pop(username)`.
`dict.pop` with no default raises `KeyError` when the key is absent, modelled
by `none`.  (The subsequent `websocket.close()` only affects the channel, not
the registry, and is not observable in this state model.) -/
def remove_connection : Registry → String → Option Registry
  | [], _ => none
  | (k, v) :: rest, u =>
    if k = u then some rest else (remove_connection rest u).map (fun r => (k, v) :: r)

/-- Outcome of one `await websocket.send_json(...)` attempt, matching the
`try`/`except` arms of `ConnectionManager.forward_message`. -/
inductive SendOutcome where
  | ok
  | disconnected
  | runtimeError
  | otherError
deriving DecidableEq, Repr

/-- The two outcomes on which `forward_message` evicts the recipient's
registry entry (`WebSocketDisconnect` and `RuntimeError`). -/
def chanErr : SendOutcome → Bool
  | .disconnected => true
  | .runtimeError => true
  | _ => false

/-- Model of `ConnectionManager.forward_message(message, recipient)`: returns the
`delivered` Bool together with the updated registry; `none` models an
uncaught `KeyError` escaping from `remove_connection` inside an `except`
arm. -/
def forward_message (reg : Registry) (recipient : String) (o : SendOutcome) :
    Option (Bool × Registry) :=
  match o with
  | .ok => some (true, reg)
  | .disconnected => (remove_connection reg recipient).map (fun r => (false, r))
  | .runtimeError => (remove_connection reg recipient).map (fun r => (false, r))
  | .otherError => some (false, reg)

/-- All chunks of one conversation, in collection (insertion) order:
`messages.find({"chat_id": cid})`. -/
def convChunks (store : List ChatChunk) (cid : String) : List ChatChunk :=
  store.filter (fun c => c.chat_id == cid)

/-- Stable insertion of a chunk into a list sorted by ascending `chunk_id`:
the chunk goes before the first strictly larger key, after equal keys seen
so far would be wrong for stability, so it goes before equal keys coming
from later in the original list. -/
def insertSorted (c : ChatChunk) : List ChatChunk → List ChatChunk
  | [] => [c]
  | d :: ds => if d.chunk_id < c.chunk_id then d :: insertSorted c ds else c :: d :: ds

/-- Embedding of `sorted(chunks, key=lambda x: x.chunk_id)`: stable ascending sort. -/
def sortChunks : List ChatChunk → List ChatChunk
  | [] => []
  | c :: cs => insertSorted c (sortChunks cs)

/-- Model of `messages.update_one({"chat_id": cid, "chunk_id": k}, {"$push":
{"messages": m}})`: push `m` onto the first document matching both keys. -/
def update_one (store : List ChatChunk) (cid : String) (k : Nat) (m : Message) :
    List ChatChunk :=
  match store with
  | [] => []
  | c :: cs =>
    if c.chat_id = cid ∧ c.chunk_id = k then
      { c with messages := c.messages ++ [m] } :: cs
    else
      c :: update_one cs cid k m

/-- Embedding of `insert_message(message)` of `src/main.py` lines 160–177: fetch the
conversation's chunks, sort by `chunk_id`; if none exist create chunk 0;
if the last chunk holds ≥ 300 messages open a fresh chunk with the next
sequence number; otherwise push onto the last chunk. -/
def insert_message (store : List ChatChunk) (m : Message) : List ChatChunk :=
  match (sortChunks (convChunks store m.chat_id)).getLast? with
  | none => store ++ [⟨m.chat_id, 0, [m]⟩]
  | some last =>
    if 300 ≤ last.messages.length then
      store ++ [⟨m.chat_id, last.chunk_id + 1, [m]⟩]
    else
      update_one store last.chat_id last.chunk_id m

/-- Sequential insertion of a list of messages, oldest first. -/
def insertAll (store : List ChatChunk) (ms : List Message) : List ChatChunk :=
  ms.foldl insert_message store

/-- The spec's `read(conversation_id)`: all messages of the conversation in
chunk-sequence order, then insertion order within each chunk. -/
def read_conv (store : List ChatChunk) (cid : String) : List Message :=
  ((sortChunks (convChunks store cid)).map (fun c => c.messages)).flatten

/-- Model of `undelivered.delete_one(msg.model_dump())`: delete the first pending
document whose fields all equal those of `m`; a no-op (no error) when no
document matches. -/
def delete_one : List Message → Message → List Message
  | [], _ => []
  | x :: xs, m => if x = m then xs else x :: delete_one xs m

/-- The mutable global state of the server: the connection registry, the
`undelivered` collection (insertion order) and the `messages` collection. -/
structure ServerState where
  reg : Registry
  pending : List Message
  store : List ChatChunk
deriving DecidableEq, Repr

/-- Result of a handler step: either the new state, or an uncaught Python
exception (by name) together with the global state at the moment it
escaped. -/
abbrev HRes := Except (String × ServerState) ServerState

/-- One iteration of the `while True` receive loop of `websocket_endpoint`
(lines 194–208) applied to a validated message: look the recipient up in
the registry; if absent, enqueue to `undelivered`; if present, forward —
on success append to the conversation log, on failure enqueue to
`undelivered`. -/
def dispatch (st : ServerState) (m : Message) (o : SendOutcome) : HRes :=
  match lookupConn st.reg m.sent_to with
  | none => .ok { st with pending := st.pending ++ [m] }
  | some _ =>
    match forward_message st.reg m.sent_to o with
    | none => .error ("KeyError", st)
    | some (true, r) => .ok { st with reg := r, store := insert_message st.store m }
    | some (false, r) => .ok { st with reg := r, pending := st.pending ++ [m] }

/-- One iteration of the drain loop of `websocket_endpoint` (lines 188–193):
forward one queued message to the just-connected user `u`; if delivered,
delete it from `undelivered` and append it to the conversation log. -/
def drainStep (st : ServerState) (u : String) (m : Message) (o : SendOutcome) : HRes :=
  match forward_message st.reg u o with
  | none => .error ("KeyError", st)
  | some (true, r) =>
    .ok { reg := r, pending := delete_one st.pending m, store := insert_message st.store m }
  | some (false, r) => .ok { st with reg := r }

/-- The drain loop over the snapshot of pending messages, each paired with
the outcome of its send attempt. -/
def drainLoop (u : String) (st : ServerState) :
    List (Message × SendOutcome) → HRes
  | [] => .ok st
  | (m, o) :: rest =>
    match drainStep st u m o with
    | .error e => .error e
    | .ok st' => drainLoop u st' rest

/-- Model of `undelivered.find({"sent_to": u})`: the snapshot of pending messages
for recipient `u`, in insertion (original send) order. -/
def snapshotFor (st : ServerState) (u : String) : List Message :=
  st.pending.filter (fun m => m.sent_to == u)

/-- Lines 181–193 of `websocket_endpoint`: on accept, register the new
connection, then drain the pending queue for this user. -/
def onConnect (st : ServerState) (u : String) (ch : Nat)
    (os : List SendOutcome) : HRes :=
  let st1 : ServerState := { st with reg := add_connection st.reg u ch }
  drainLoop u st1 ((snapshotFor st1 u).zip os)

/-- One inbound frame of the receive loop: either a record that passes
`Message.model_validate` (with the oracle outcome of its delivery attempt),
or a malformed record on which validation raises. -/
inductive Inbound where
  | valid (m : Message) (o : SendOutcome)
  | malformed
deriving DecidableEq, Repr

/-- The `while True` receive loop of `websocket_endpoint` over a finite
prefix of inbound frames.  A malformed frame makes
`Message.model_validate` raise a `ValidationError`, which no `except` arm
catches (line 209 catches only `WebSocketDisconnect`), so it escapes and
ends the handler with the state as it stood. -/
def handleLoop (st : ServerState) : List Inbound → HRes
  | [] => .ok st
  | .malformed :: _ => .error ("ValidationError", st)
  | .valid m o :: rest =>
    match dispatch st m o with
    | .error e => .error e
    | .ok st' => handleLoop st' rest

/-- Net effect of a drain on the `undelivered` collection: each message
whose send succeeded is deleted (first match), the rest are untouched. -/
def drainPendingEffect (p : List Message) (pairs : List (Message × SendOutcome)) :
    List Message :=
  pairs.foldl (fun acc pr => if pr.2 = .ok then delete_one acc pr.1 else acc) p

/-- Net effect of a drain on the `messages` collection: each message whose
send succeeded is appended via `insert_message`, the rest are untouched. -/
def drainStoreEffect (s : List ChatChunk) (pairs : List (Message × SendOutcome)) :
    List ChatChunk :=
  pairs.foldl (fun acc pr => if pr.2 = .ok then insert_message acc pr.1 else acc) s

/-- Construction of a `Message` value.  In `src/main.py` the field default
`timestamp: datetime = datetime.now()` is evaluated once, when the class
body is executed at import time; `classTs` is that single value.  `now`
is the wall-clock time at which this particular message is constructed —
the source has no access to it, so the embedding necessarily ignores it
when `ts` is absent. -/
def mkMessage (classTs : Nat) (_now : Nat) (sb sto cid body : String)
    (ts : Option Nat) : Message :=
  match ts with
  | some t => ⟨sb, sto, cid, body, t⟩
  | none => ⟨sb, sto, cid, body, classTs⟩

/-- Specification-side description of what a successful `dict.pop(u)`
returns: the registry with its first binding of `u` removed.  Stated
separately so that theorems about `remove_connection` can name the
resulting registry explicitly. -/
def eraseConn : Registry → String → Registry
  | [], _ => []
  | (k, v) :: rest, u => if k = u then rest else (k, v) :: eraseConn rest u

/-- Net effect of a drain on the registry: each channel-error outcome pops
the just-connected user's entry.  (When the entry is already gone a real
pop raises; the drain theorems only use this description on runs where
that cannot happen.) -/
def drainRegEffect (r : Registry) (u : String)
    (pairs : List (Message × SendOutcome)) : Registry :=
  pairs.foldl
    (fun acc pr => if chanErr pr.2 then (remove_connection acc u).getD acc else acc) r

/-- A sequence of `add_connection` register operations applied in order. -/
def applyRegisters (reg : Registry) (ops : List (String × Nat)) : Registry :=
  ops.foldl (fun r p => add_connection r p.1 p.2) reg

/-- Invariant tying one conversation's chunk list (in collection order) to
the messages inserted so far: chunk ids are exactly `0, 1, …` in order,
all chunks belong to the conversation, every chunk but the last holds
exactly 300 messages, the last holds between 1 and 300, and concatenating
the chunks' messages reproduces the inserted messages in order. -/
def ChunkInv (cid : String) (msgs : List Message) (cs : List ChatChunk) : Prop :=
  cs.map (fun c => c.chunk_id) = List.range cs.length ∧
  (∀ c ∈ cs, c.chat_id = cid) ∧
  (∀ c ∈ cs.dropLast, c.messages.length = 300) ∧
  (∀ c, cs.getLast? = some c → 0 < c.messages.length ∧ c.messages.length ≤ 300) ∧
  (cs.map (fun c => c.messages)).flatten = msgs

/-! Concrete example data used by witness and counterexample theorems. -/

def exMsg : Message := ⟨"alice", "bob", "chat1", "hello", 0⟩

def exMsg2 : Message := ⟨"alice", "bob", "chat1", "second", 0⟩

def exMsg3 : Message := ⟨"alice", "bob", "chat1", "third", 0⟩

def exMsgDave : Message := ⟨"carol", "dave", "chat2", "hey", 0⟩

def exStBob : ServerState := ⟨[("bob", 1)], [], []⟩

def exStCarol : ServerState := ⟨[("carol", 9)], [], []⟩

def exStPending : ServerState := ⟨[], [exMsg, exMsg2, exMsg3], []⟩

/-! ## Registry lemmas -/

theorem lookupConn_eq_none_of_not_mem (reg : Registry) (u : String)
    (h : u ∉ reg.map Prod.fst) : lookupConn reg u = none := by
  induction reg with
  | nil => rfl
  | cons p rest ih =>
    obtain ⟨k, v⟩ := p
    simp only [List.map_cons, List.mem_cons] at h
    push_neg at h
    simp [lookupConn, Ne.symm h.1, ih h.2]

theorem lookupConn_add_self (reg : Registry) (u : String) (ch : Nat) :
    lookupConn (add_connection reg u ch) u = some ch := by
  induction reg with
  | nil => simp [add_connection, lookupConn]
  | cons p rest ih =>
    obtain ⟨k, v⟩ := p
    by_cases h : k = u
    · simp [add_connection, lookupConn, h]
    · simp [add_connection, lookupConn, h, ih]

theorem mem_keys_add (reg : Registry) (u x : String) (ch : Nat)
    (hx : x ∈ (add_connection reg u ch).map Prod.fst) :
    x ∈ reg.map Prod.fst ∨ x = u := by
  induction reg with
  | nil => simpa [add_connection] using hx
  | cons p rest ih =>
    obtain ⟨k, v⟩ := p
    by_cases h : k = u
    · simp only [add_connection, if_pos h, List.map_cons, List.mem_cons] at hx
      rcases hx with hx | hx
      · exact Or.inl (by simp [hx])
      · exact Or.inl (by simp [hx])
    · simp only [add_connection, if_neg h, List.map_cons, List.mem_cons] at hx
      rcases hx with hx | hx
      · exact Or.inl (by simp [hx])
      · rcases ih hx with h' | h'
        · exact Or.inl (by simp [h'])
        · exact Or.inr h'

theorem nodup_keys_add (reg : Registry) (u : String) (ch : Nat)
    (h : (reg.map Prod.fst).Nodup) :
    ((add_connection reg u ch).map Prod.fst).Nodup := by
  induction reg with
  | nil => simp [add_connection]
  | cons p rest ih =>
    obtain ⟨k, v⟩ := p
    simp only [List.map_cons, List.nodup_cons] at h
    by_cases hk : k = u
    · simp only [add_connection, if_pos hk, List.map_cons, List.nodup_cons]
      exact ⟨h.1, h.2⟩
    · simp only [add_connection, if_neg hk, List.map_cons, List.nodup_cons]
      refine ⟨fun hc => ?_, ih h.2⟩
      rcases mem_keys_add rest u k ch hc with h' | h'
      · exact h.1 h'
      · exact hk h'

theorem nodup_keys_applyRegisters (ops : List (String × Nat)) (reg : Registry)
    (h : (reg.map Prod.fst).Nodup) :
    ((applyRegisters reg ops).map Prod.fst).Nodup := by
  induction ops generalizing reg with
  | nil => exact h
  | cons p rest ih => exact ih _ (nodup_keys_add reg p.1 p.2 h)

theorem remove_connection_eq_erase (reg : Registry) (u : String) (ch : Nat)
    (h : lookupConn reg u = some ch) :
    remove_connection reg u = some (eraseConn reg u) := by
  induction reg with
  | nil => simp [lookupConn] at h
  | cons p rest ih =>
    obtain ⟨k, v⟩ := p
    by_cases hk : k = u
    · simp [remove_connection, eraseConn, hk]
    · simp only [lookupConn, if_neg hk] at h
      simp [remove_connection, eraseConn, hk, ih h]

theorem remove_connection_eq_none (reg : Registry) (u : String)
    (h : lookupConn reg u = none) : remove_connection reg u = none := by
  induction reg with
  | nil => rfl
  | cons p rest ih =>
    obtain ⟨k, v⟩ := p
    by_cases hk : k = u
    · simp [lookupConn, hk] at h
    · simp only [lookupConn, if_neg hk] at h
      simp [remove_connection, hk, ih h]

theorem lookupConn_eraseConn_self (reg : Registry) (u : String)
    (hnd : (reg.map Prod.fst).Nodup) :
    lookupConn (eraseConn reg u) u = none := by
  induction reg with
  | nil => rfl
  | cons p rest ih =>
    obtain ⟨k, v⟩ := p
    simp only [List.map_cons, List.nodup_cons] at hnd
    by_cases hk : k = u
    · simp only [eraseConn, if_pos hk]
      exact lookupConn_eq_none_of_not_mem rest u (hk ▸ hnd.1)
    · simp [eraseConn, lookupConn, hk, ih hnd.2]

theorem lookupConn_eraseConn_other (reg : Registry) (u v : String)
    (hv : v ≠ u) : lookupConn (eraseConn reg u) v = lookupConn reg v := by
  induction reg with
  | nil => rfl
  | cons p rest ih =>
    obtain ⟨k, w⟩ := p
    by_cases hk : k = u
    · subst hk
      simp [eraseConn, lookupConn, Ne.symm hv]
    · by_cases hkv : k = v
      · subst hkv
        simp [eraseConn, lookupConn, hk]
      · simp [eraseConn, lookupConn, hk, hkv, ih]

/-! ## Pending-queue lemmas -/

theorem delete_one_of_not_mem (q : List Message) (m : Message) (h : m ∉ q) :
    delete_one q m = q := by
  induction q with
  | nil => rfl
  | cons x xs ih =>
    simp only [List.mem_cons] at h
    push_neg at h
    simp [delete_one, Ne.symm h.1, ih h.2]

theorem length_delete_one_of_mem (q : List Message) (m : Message) (h : m ∈ q) :
    (delete_one q m).length + 1 = q.length := by
  induction q with
  | nil => simp at h
  | cons x xs ih =>
    by_cases hx : x = m
    · simp [delete_one, hx]
    · rcases List.mem_cons.mp h with h' | h'
      · exact absurd h'.symm hx
      · simp [delete_one, hx, ih h']

theorem not_mem_delete_one_of_count_le_one (q : List Message) (m : Message)
    (h : q.count m ≤ 1) : m ∉ delete_one q m := by
  induction q with
  | nil => simp [delete_one]
  | cons x xs ih =>
    by_cases hx : x = m
    · subst hx
      rw [List.count_cons_self] at h
      have : xs.count x = 0 := by omega
      simp only [delete_one, if_pos rfl]
      exact List.count_eq_zero.mp this
    · rw [List.count_cons_of_ne (fun hmx => hx hmx.symm)] at h
      simp only [delete_one, if_neg hx, List.mem_cons]
      push_neg
      exact ⟨fun hmx => hx hmx.symm, ih h⟩

/-! ## Claim theorems: registry, dispatch, handler loop, timestamps -/

/-- C5 counterexample: `remove_connection` on an identity with no
registered connection raises `KeyError` (modelled as `none`) instead of
no-op'ing: it does not return the unchanged registry, refuting
idempotence. -/
theorem remove_connection_absent_cex :
    remove_connection ([] : Registry) "alice" = none ∧
    remove_connection ([] : Registry) "alice" ≠ some [] := by
  constructor
  · rfl
  · simp [remove_connection]

/-- C5 amended: `remove_connection` removes the identity's binding when
one is present (and other identities' lookups are unaffected), but when
the identity is absent it raises `KeyError` (returns `none`) rather than
no-op'ing — the operation is not idempotent. -/
theorem remove_connection_behavior (reg : Registry) (u v : String)
    (hnd : (reg.map Prod.fst).Nodup) :
    ((lookupConn reg u).isSome →
      remove_connection reg u = some (eraseConn reg u) ∧
      lookupConn (eraseConn reg u) u = none ∧
      (v ≠ u → lookupConn (eraseConn reg u) v = lookupConn reg v)) ∧
    (lookupConn reg u = none → remove_connection reg u = none) := by
  constructor
  · intro hs
    obtain ⟨ch, hch⟩ := Option.isSome_iff_exists.mp hs
    exact ⟨remove_connection_eq_erase reg u ch hch,
      lookupConn_eraseConn_self reg u hnd,
      fun hv => lookupConn_eraseConn_other reg u v hv⟩
  · exact remove_connection_eq_none reg u

/-- Witness for the amended C5 theorem at a concrete registry. -/
theorem remove_connection_behavior_wit :
    (([("bob", 1)] : Registry).map Prod.fst).Nodup ∧
    remove_connection ([("bob", 1)] : Registry) "bob" = some [] ∧
    lookupConn (eraseConn ([("bob", 1)] : Registry) "bob") "bob" = none ∧
    lookupConn (eraseConn ([("bob", 1)] : Registry) "bob") "alice"
      = lookupConn ([("bob", 1)] : Registry) "alice" := by
  have hnd : (([("bob", 1)] : Registry).map Prod.fst).Nodup := by decide
  have h := (remove_connection_behavior [("bob", 1)] "bob" "alice" hnd).1 (by decide)
  exact ⟨hnd, by simpa [eraseConn] using h.1, h.2.1, h.2.2 (by decide)⟩

/-- C8: registering replaces rather than duplicates — after any sequence
of register operations the registry still has at most one binding per
identity, and a lookup immediately after registering returns exactly the
newly registered channel. -/
theorem add_connection_at_most_one (reg : Registry) (ops : List (String × Nat))
    (u : String) (ch : Nat) (hnd : (reg.map Prod.fst).Nodup) :
    ((applyRegisters reg ops).map Prod.fst).Nodup ∧
    lookupConn (add_connection reg u ch) u = some ch :=
  ⟨nodup_keys_applyRegisters ops reg hnd, lookupConn_add_self reg u ch⟩

/-- Witness for C8: re-registering "alice" twice leaves a single binding
holding the newest channel. -/
theorem add_connection_at_most_one_wit :
    (([] : Registry).map Prod.fst).Nodup ∧
    ((applyRegisters ([] : Registry) [("alice", 1), ("alice", 2)]).map Prod.fst).Nodup ∧
    lookupConn (add_connection ([("alice", 1)] : Registry) "alice" 2) "alice" = some 2 := by
  have h := add_connection_at_most_one ([] : Registry) [("alice", 1), ("alice", 2)]
    "alice" 2 (by decide)
  have h' := add_connection_at_most_one ([("alice", 1)] : Registry) [] "alice" 2 (by decide)
  exact ⟨by decide, h.1, h'.2⟩

/-- C9: dispatching to a recipient with no registered connection enqueues
the message to `undelivered`, leaves the conversation log and the
registry unchanged, and raises no error. -/
theorem dispatch_offline_enqueues (st : ServerState) (m : Message) (o : SendOutcome)
    (h : lookupConn st.reg m.sent_to = none) :
    dispatch st m o = .ok { st with pending := st.pending ++ [m] } := by
  simp [dispatch, h]

/-- Witness for C9 at a concrete state. -/
theorem dispatch_offline_enqueues_wit :
    lookupConn (ServerState.mk [] [] []).reg exMsg.sent_to = none ∧
    dispatch ⟨[], [], []⟩ exMsg .ok = .ok ⟨[], [exMsg], []⟩ := by
  refine ⟨rfl, ?_⟩
  have h := dispatch_offline_enqueues ⟨[], [], []⟩ exMsg .ok rfl
  simpa using h

/-- C3 counterexample: with "bob" registered and the live send failing
with a transient (unexpected) error, the code *does* enqueue the message
to `undelivered` — the pending queue goes from `[]` to `[exMsg]`,
refuting "the message is not enqueued to the pending queue". -/
theorem dispatch_transient_cex :
    dispatch exStBob exMsg .otherError = .ok ⟨[("bob", 1)], [exMsg], []⟩ ∧
    ([exMsg] : List Message) ≠ [] := by
  constructor
  · rfl
  · simp

/-- C3 amended: on a transient (unexpected) send error to a registered
recipient, the message *is* enqueued to the pending queue, is not
appended to the conversation log, the registry entry is kept, and the
forward reports failure (the sender is never told delivery succeeded). -/
theorem dispatch_transient_enqueues (st : ServerState) (m : Message) (ch : Nat)
    (h : lookupConn st.reg m.sent_to = some ch) :
    dispatch st m .otherError = .ok { st with pending := st.pending ++ [m] } ∧
    forward_message st.reg m.sent_to .otherError = some (false, st.reg) := by
  constructor
  · simp [dispatch, h, forward_message]
  · rfl

/-- Witness for the amended C3 theorem. -/
theorem dispatch_transient_enqueues_wit :
    lookupConn exStBob.reg exMsg.sent_to = some 1 ∧
    dispatch exStBob exMsg .otherError = .ok ⟨[("bob", 1)], [exMsg], []⟩ ∧
    forward_message exStBob.reg exMsg.sent_to .otherError = some (false, exStBob.reg) := by
  have h := dispatch_transient_enqueues exStBob exMsg 1 rfl
  exact ⟨rfl, by simpa [exStBob] using h.1, h.2⟩

/-- C4: when the registered recipient's channel is closed/broken (the send
raises `WebSocketDisconnect` or `RuntimeError`), dispatch evicts the
registry entry (a subsequent lookup returns `none`), enqueues the message
to the pending queue exactly as the offline path does, and leaves the
conversation log unchanged. -/
theorem dispatch_stale_evicts (st : ServerState) (m : Message) (ch : Nat)
    (o : SendOutcome) (hnd : (st.reg.map Prod.fst).Nodup)
    (h : lookupConn st.reg m.sent_to = some ch) (ho : chanErr o = true) :
    dispatch st m o = .ok ⟨eraseConn st.reg m.sent_to, st.pending ++ [m], st.store⟩ ∧
    lookupConn (eraseConn st.reg m.sent_to) m.sent_to = none := by
  have hr := remove_connection_eq_erase st.reg m.sent_to ch h
  refine ⟨?_, lookupConn_eraseConn_self st.reg m.sent_to hnd⟩
  cases o with
  | ok => simp [chanErr] at ho
  | otherError => simp [chanErr] at ho
  | disconnected => simp [dispatch, h, forward_message, hr]
  | runtimeError => simp [dispatch, h, forward_message, hr]

/-- Witness for C4 at a concrete state. -/
theorem dispatch_stale_evicts_wit :
    (exStBob.reg.map Prod.fst).Nodup ∧
    lookupConn exStBob.reg exMsg.sent_to = some 1 ∧
    chanErr .disconnected = true ∧
    dispatch exStBob exMsg .disconnected = .ok ⟨[], [exMsg], []⟩ ∧
    lookupConn (eraseConn exStBob.reg exMsg.sent_to) exMsg.sent_to = none := by
  have h := dispatch_stale_evicts exStBob exMsg 1 .disconnected (by decide) rfl rfl
  exact ⟨by decide, rfl, rfl, by simpa [exStBob, eraseConn] using h.1, h.2⟩

/-- C7 counterexample: with two identical pending entries, removing the
entry twice deletes both copies, so the queue after two removals differs
from the queue after one — `remove` is not idempotent on a queue holding
duplicates. -/
theorem delete_one_twice_cex :
    delete_one (delete_one [exMsg, exMsg] exMsg) exMsg = [] ∧
    delete_one [exMsg, exMsg] exMsg = [exMsg] ∧
    ([] : List Message) ≠ [exMsg] := by
  refine ⟨?_, ?_, by simp⟩
  · simp [delete_one]
  · simp [delete_one]

/-- C7 amended: `delete_one` removes the first matching entry and raises
no error — deleting an absent entry is a no-op, deleting a present one
shrinks the queue by exactly one — and removal is idempotent provided
the queue holds the entry at most once (a second call is then a no-op). -/
theorem delete_one_spec (q : List Message) (m : Message) (hc : q.count m ≤ 1) :
    delete_one (delete_one q m) m = delete_one q m ∧
    (m ∈ q → (delete_one q m).length + 1 = q.length) ∧
    (m ∉ q → delete_one q m = q) := by
  refine ⟨?_, length_delete_one_of_mem q m, delete_one_of_not_mem q m⟩
  exact delete_one_of_not_mem _ m (not_mem_delete_one_of_count_le_one q m hc)

/-- Witness for the amended C7 theorem. -/
theorem delete_one_spec_wit :
    ([exMsg].count exMsg ≤ 1) ∧
    delete_one (delete_one [exMsg] exMsg) exMsg = delete_one [exMsg] exMsg ∧
    (delete_one [exMsg] exMsg).length + 1 = ([exMsg] : List Message).length := by
  have h := delete_one_spec [exMsg] exMsg (by simp)
  exact ⟨by simp, h.1, h.2.1 (by simp)⟩

/-- C6 counterexample: a malformed inbound record kills the whole receive
loop, not just the single receive: the handler ends with an uncaught
`ValidationError` (carrying the untouched state — the registry entry is
never removed), and the following well-formed message is never processed,
whereas processing the same well-formed message alone would succeed. -/
theorem handleLoop_malformed_cex :
    handleLoop exStCarol [.malformed, .valid exMsgDave .ok] =
      .error ("ValidationError", exStCarol) ∧
    handleLoop exStCarol [.valid exMsgDave .ok] = .ok ⟨[("carol", 9)], [exMsgDave], []⟩ ∧
    (Except.error ("ValidationError", exStCarol) : HRes) ≠
      .ok ⟨[("carol", 9)], [exMsgDave], []⟩ := by
  refine ⟨rfl, rfl, by simp⟩

/-- C6 amended: an inbound record that fails validation raises a
`ValidationError` that no handler catches: the receive loop terminates at
that record, subsequent inbound records are not processed, and the global
state — including the sender's still-registered connection entry — is left
exactly as it was. -/
theorem handleLoop_malformed (st : ServerState) (rest : List Inbound) :
    handleLoop st (.malformed :: rest) = .error ("ValidationError", st) := rfl

/-! ## Conversation-log lemmas (chunk invariant) -/

theorem insertSorted_eq_cons (c : ChatChunk) (cs : List ChatChunk)
    (h : ∀ d ∈ cs, c.chunk_id ≤ d.chunk_id) : insertSorted c cs = c :: cs := by
  cases cs with
  | nil => rfl
  | cons d ds =>
    have hd : ¬d.chunk_id < c.chunk_id := not_lt.mpr (h d (by simp))
    simp [insertSorted, hd]

theorem sortChunks_eq_self (cs : List ChatChunk)
    (h : cs.Pairwise (fun a b => a.chunk_id ≤ b.chunk_id)) : sortChunks cs = cs := by
  induction cs with
  | nil => rfl
  | cons c rest ih =>
    rw [List.pairwise_cons] at h
    simp only [sortChunks, ih h.2]
    exact insertSorted_eq_cons c rest h.1

theorem pairwise_le_of_ids_range (cs : List ChatChunk)
    (h : cs.map (fun c => c.chunk_id) = List.range cs.length) :
    cs.Pairwise (fun a b => a.chunk_id ≤ b.chunk_id) := by
  have h1 : (cs.map (fun c => c.chunk_id)).Pairwise (· < ·) := by
    rw [h]; exact List.pairwise_lt_range _
  rw [List.pairwise_map] at h1
  exact h1.imp le_of_lt

theorem convChunks_append_self (store : List ChatChunk) (cid : String)
    (c : ChatChunk) (hc : c.chat_id = cid) :
    convChunks (store ++ [c]) cid = convChunks store cid ++ [c] := by
  simp [convChunks, List.filter_append, hc]

theorem update_one_cons_of_no_match (c : ChatChunk) (cs : List ChatChunk)
    (cid : String) (k : Nat) (m : Message)
    (h : ¬(c.chat_id = cid ∧ c.chunk_id = k)) :
    update_one (c :: cs) cid k m = c :: update_one cs cid k m := by
  simp only [update_one, if_neg h]

theorem convChunks_cons_of_eq (c : ChatChunk) (cs : List ChatChunk)
    (cid : String) (h : c.chat_id = cid) :
    convChunks (c :: cs) cid = c :: convChunks cs cid := by
  simp [convChunks, List.filter_cons, h]

theorem convChunks_cons_of_ne (c : ChatChunk) (cs : List ChatChunk)
    (cid : String) (h : ¬c.chat_id = cid) :
    convChunks (c :: cs) cid = convChunks cs cid := by
  simp [convChunks, List.filter_cons, h]

theorem convChunks_update_one (store : List ChatChunk) (cid : String) (k : Nat)
    (m : Message) :
    convChunks (update_one store cid k m) cid
      = update_one (convChunks store cid) cid k m := by
  induction store with
  | nil => rfl
  | cons c cs ih =>
    by_cases h1 : c.chat_id = cid
    · by_cases h2 : c.chunk_id = k
      · simp [update_one, convChunks, List.filter_cons, h1, h2]
      · have hcond : ¬(c.chat_id = cid ∧ c.chunk_id = k) := by simp [h2]
        rw [update_one_cons_of_no_match _ _ _ _ _ hcond,
          convChunks_cons_of_eq _ _ _ h1, ih,
          convChunks_cons_of_eq _ _ _ h1,
          update_one_cons_of_no_match _ _ _ _ _ hcond]
    · have hcond : ¬(c.chat_id = cid ∧ c.chunk_id = k) := by simp [h1]
      rw [update_one_cons_of_no_match _ _ _ _ _ hcond,
        convChunks_cons_of_ne _ _ _ h1, ih, convChunks_cons_of_ne _ _ _ h1]

theorem update_one_append_of_no_match (as bs : List ChatChunk) (cid : String)
    (k : Nat) (m : Message)
    (h : ∀ c ∈ as, ¬(c.chat_id = cid ∧ c.chunk_id = k)) :
    update_one (as ++ bs) cid k m = as ++ update_one bs cid k m := by
  induction as with
  | nil => rfl
  | cons c cs ih =>
    have hc := h c (by simp)
    simp only [List.cons_append, update_one, if_neg hc, List.append_eq]
    rw [ih (fun d hd => h d (by simp [hd]))]

theorem sum_map_len_300 (ys : List ChatChunk)
    (h : ∀ c ∈ ys, c.messages.length = 300) :
    (ys.map (fun c => c.messages.length)).sum = 300 * ys.length := by
  induction ys with
  | nil => rfl
  | cons c cs ih =>
    have hc := h c (by simp)
    simp only [List.map_cons, List.sum_cons, hc, List.length_cons,
      ih (fun d hd => h d (by simp [hd]))]
    ring

theorem chunkInv_nil (cid : String) : ChunkInv cid [] [] := by
  simp [ChunkInv]

theorem chunkInv_ids_split (ys : List ChatChunk) (L : ChatChunk)
    (h : (ys ++ [L]).map (fun c => c.chunk_id) = List.range (ys ++ [L]).length) :
    ys.map (fun c => c.chunk_id) = List.range ys.length ∧ L.chunk_id = ys.length := by
  rw [List.map_append, List.length_append, List.length_singleton,
    List.range_succ] at h
  have hlen : (ys.map (fun c => c.chunk_id)).length = (List.range ys.length).length := by
    simp
  obtain ⟨h1, h2⟩ := List.append_inj h hlen
  refine ⟨h1, ?_⟩
  simpa using h2

/-- When no chunk of the conversation exists yet, `insert_message`
creates chunk 0. -/
theorem insert_message_eq_new (store : List ChatChunk) (m : Message)
    (h : (sortChunks (convChunks store m.chat_id)).getLast? = none) :
    insert_message store m = store ++ [⟨m.chat_id, 0, [m]⟩] := by
  unfold insert_message
  simp only [h]

/-- When the highest-sequence chunk is full, `insert_message` opens a
fresh chunk with the next sequence number. -/
theorem insert_message_eq_fresh (store : List ChatChunk) (m : Message)
    (L : ChatChunk)
    (h : (sortChunks (convChunks store m.chat_id)).getLast? = some L)
    (hcap : 300 ≤ L.messages.length) :
    insert_message store m = store ++ [⟨m.chat_id, L.chunk_id + 1, [m]⟩] := by
  unfold insert_message
  simp only [h]
  rw [if_pos hcap]

/-- When the highest-sequence chunk has room, `insert_message` pushes onto
it. -/
theorem insert_message_eq_push (store : List ChatChunk) (m : Message)
    (L : ChatChunk)
    (h : (sortChunks (convChunks store m.chat_id)).getLast? = some L)
    (hcap : ¬300 ≤ L.messages.length) :
    insert_message store m = update_one store L.chat_id L.chunk_id m := by
  unfold insert_message
  simp only [h]
  rw [if_neg hcap]

/-- Inserting a message of conversation `cid` preserves the chunk
invariant, extending the recorded message list by that message. -/
theorem chunkInv_insert (store : List ChatChunk) (cid : String)
    (msgs : List Message) (m : Message) (hm : m.chat_id = cid)
    (h : ChunkInv cid msgs (convChunks store cid)) :
    ChunkInv cid (msgs ++ [m]) (convChunks (insert_message store m) cid) := by
  obtain ⟨hids, hcids, hfull, hlast, hcontent⟩ := h
  have hsort : sortChunks (convChunks store cid) = convChunks store cid :=
    sortChunks_eq_self _ (pairwise_le_of_ids_range _ hids)
  cases hL : (convChunks store cid).getLast? with
  | none =>
    have hins : insert_message store m = store ++ [⟨m.chat_id, 0, [m]⟩] :=
      insert_message_eq_new store m (by rw [hm, hsort]; exact hL)
    have hnil : convChunks store cid = [] := List.getLast?_eq_none_iff.mp hL
    rw [hnil, List.map_nil, List.flatten_nil] at hcontent
    rw [hins, convChunks_append_self store cid _ hm, hnil, ← hcontent]
    refine ⟨by simp [List.range_succ], ?_, by simp, ?_, by simp⟩
    · intro c hc
      simp only [List.nil_append, List.mem_singleton] at hc
      subst hc
      exact hm
    · intro c hc
      simp only [List.nil_append, List.getLast?_singleton, Option.some.injEq] at hc
      subst hc
      simp
  | some L =>
    have hsplit : (convChunks store cid).dropLast ++ [L] = convChunks store cid :=
      List.dropLast_append_getLast? L hL
    have hidsplit := chunkInv_ids_split (convChunks store cid).dropLast L
      (by rw [hsplit]; exact hids)
    have hLmem : L ∈ convChunks store cid := by
      rw [← hsplit]; simp
    have hLcid : L.chat_id = cid := hcids L hLmem
    have hLsize := hlast L hL
    have hcslen : (convChunks store cid).length
        = (convChunks store cid).dropLast.length + 1 := by
      rw [← hsplit]; simp
    by_cases hcap : 300 ≤ L.messages.length
    · -- the last chunk is full: a fresh chunk with the next id is created
      have hins : insert_message store m
          = store ++ [⟨m.chat_id, L.chunk_id + 1, [m]⟩] :=
        insert_message_eq_fresh store m L (by rw [hm, hsort]; exact hL) hcap
      have hLfull : L.messages.length = 300 := le_antisymm hLsize.2 hcap
      rw [hins, convChunks_append_self store cid _ hm]
      have hLid : L.chunk_id + 1 = (convChunks store cid).length := by
        have h2 := hidsplit.2
        omega
      constructor
      · rw [List.map_append, List.length_append, hids]
        simp only [List.map_cons, List.map_nil, List.length_singleton]
        rw [List.range_succ, hLid]
      constructor
      · intro c hc
        rcases List.mem_append.mp hc with hc | hc
        · exact hcids c hc
        · simp only [List.mem_singleton] at hc
          subst hc
          exact hm
      constructor
      · intro c hc
        rw [List.dropLast_concat] at hc
        rcases List.mem_append.mp (hsplit ▸ hc) with h' | h'
        · exact hfull c h'
        · simp only [List.mem_singleton] at h'
          subst h'
          exact hLfull
      constructor
      · intro c hc
        rw [List.getLast?_concat] at hc
        injection hc with hc
        subst hc
        simp
      · rw [List.map_append, List.flatten_append, hcontent]
        simp
    · -- the last chunk has room: the message is pushed onto it
      have hins : insert_message store m = update_one store L.chat_id L.chunk_id m :=
        insert_message_eq_push store m L (by rw [hm, hsort]; exact hL) hcap
      have hnomatch : ∀ c ∈ (convChunks store cid).dropLast,
          ¬(c.chat_id = cid ∧ c.chunk_id = L.chunk_id) := by
        intro c hc hcontra
        have hcm : c.chunk_id ∈ ((convChunks store cid).dropLast.map
            (fun c => c.chunk_id)) := List.mem_map_of_mem _ hc
        rw [hidsplit.1] at hcm
        have hlt := List.mem_range.mp hcm
        rw [hcontra.2, hidsplit.2] at hlt
        exact lt_irrefl _ hlt
      have hupd : update_one [L] cid L.chunk_id m
          = [{ L with messages := L.messages ++ [m] }] := by
        simp [update_one, hLcid]
      have hcontent2 : ((convChunks store cid).dropLast.map
          (fun c => c.messages)).flatten ++ L.messages = msgs := by
        conv at hcontent => rw [← hsplit]
        simpa using hcontent
      rw [hins, hLcid, convChunks_update_one store cid L.chunk_id m, ← hsplit,
        update_one_append_of_no_match _ _ _ _ _ hnomatch, hupd]
      constructor
      · rw [List.map_append, hidsplit.1]
        simp only [List.map_cons, List.map_nil, List.length_append,
          List.length_singleton]
        rw [List.range_succ]
        have hpid : ({ L with messages := L.messages ++ [m] } : ChatChunk).chunk_id
            = (convChunks store cid).dropLast.length := hidsplit.2
        rw [hpid]
      constructor
      · intro c hc
        rcases List.mem_append.mp hc with hc | hc
        · exact hcids c (by rw [← hsplit]; exact List.mem_append_left _ hc)
        · simp only [List.mem_singleton] at hc
          subst hc
          exact hLcid
      constructor
      · intro c hc
        rw [List.dropLast_concat] at hc
        exact hfull c hc
      constructor
      · intro c hc
        rw [List.getLast?_concat] at hc
        injection hc with hc
        subst hc
        simp only [List.length_append, List.length_singleton]
        omega
      · rw [List.map_append, List.flatten_append, ← hcontent2]
        simp

/-- Sequential insertion preserves the chunk invariant. -/
theorem chunkInv_insertAll (store : List ChatChunk) (cid : String)
    (msgs ms : List Message) (hall : ∀ m ∈ ms, m.chat_id = cid)
    (h : ChunkInv cid msgs (convChunks store cid)) :
    ChunkInv cid (msgs ++ ms) (convChunks (insertAll store ms) cid) := by
  induction ms generalizing store msgs with
  | nil => simpa [insertAll] using h
  | cons m rest ih =>
    have h1 := chunkInv_insert store cid msgs m (hall m (by simp)) h
    have h2 := ih (insert_message store m) (msgs ++ [m])
      (fun x hx => hall x (by simp [hx])) h1
    simpa [insertAll] using h2

/-- C1: for any conversation, after sequentially inserting `ms` via
`insert_message` into a store with no chunks for that conversation, every
chunk except possibly the highest-numbered one holds exactly 300 messages,
the chunk sequence numbers are the contiguous range `0 .. ⌈N/300⌉ - 1`
with no gaps or duplicates, and concatenating the chunks in sequence order
yields exactly the inserted messages in insertion order. -/
theorem insert_message_chunk_invariant (store : List ChatChunk) (cid : String)
    (ms : List Message) (h0 : convChunks store cid = [])
    (hall : ∀ m ∈ ms, m.chat_id = cid) :
    ((convChunks (insertAll store ms) cid).dropLast.map
        (fun c => c.messages.length))
      = List.replicate ((convChunks (insertAll store ms) cid).length - 1) 300 ∧
    (convChunks (insertAll store ms) cid).map (fun c => c.chunk_id)
      = List.range ((ms.length + 299) / 300) ∧
    ((convChunks (insertAll store ms) cid).map (fun c => c.messages)).flatten
      = ms ∧
    read_conv (insertAll store ms) cid = ms := by
  have hinv := chunkInv_insertAll store cid [] ms hall
    (by rw [h0]; exact chunkInv_nil cid)
  rw [List.nil_append] at hinv
  obtain ⟨hids, hcids, hfull, hlast, hcontent⟩ := hinv
  have hsort := sortChunks_eq_self _ (pairwise_le_of_ids_range _ hids)
  have hread : read_conv (insertAll store ms) cid = ms := by
    rw [read_conv, hsort, hcontent]
  have hcount : (convChunks (insertAll store ms) cid).length
      = (ms.length + 299) / 300 := by
    cases hL : (convChunks (insertAll store ms) cid).getLast? with
    | none =>
      have hnil := List.getLast?_eq_none_iff.mp hL
      rw [hnil] at hcontent ⊢
      simp only [List.map_nil, List.flatten_nil] at hcontent
      rw [← hcontent]
      simp
    | some L =>
      have hsplit := List.dropLast_append_getLast? L hL
      have hLsize := hlast L hL
      have hsum := sum_map_len_300 _ hfull
      have hNlen : ms.length
          = 300 * (convChunks (insertAll store ms) cid).dropLast.length
            + L.messages.length := by
        conv_lhs => rw [← hcontent, ← hsplit]
        rw [List.map_append, List.flatten_append, List.length_append,
          List.length_flatten, List.map_map]
        simp only [List.map_cons, List.map_nil, List.flatten_cons,
          List.flatten_nil, List.append_nil, Function.comp]
        have hsum2 : (List.map (List.length ∘ fun c => c.messages)
            (convChunks (insertAll store ms) cid).dropLast).sum
            = 300 * (convChunks (insertAll store ms) cid).dropLast.length := hsum
        omega
      have hlen2 : (convChunks (insertAll store ms) cid).length
          = (convChunks (insertAll store ms) cid).dropLast.length + 1 := by
        conv_lhs => rw [← hsplit]
        simp
      omega
  refine ⟨?_, ?_, hcontent, hread⟩
  · rw [List.eq_replicate_iff]
    constructor
    · simp
    · intro b hb
      obtain ⟨c, hc, hcb⟩ := List.mem_map.mp hb
      rw [← hcb]
      exact hfull c hc
  · rw [hids, hcount]

/-- Witness for C1: two messages inserted into an empty store form a
single chunk 0 whose contents read back in order. -/
theorem insert_message_chunk_invariant_wit :
    convChunks ([] : List ChatChunk) "chat1" = [] ∧
    (convChunks (insertAll [] [exMsg, exMsg2]) "chat1").map (fun c => c.chunk_id)
      = List.range 1 ∧
    read_conv (insertAll [] [exMsg, exMsg2]) "chat1" = [exMsg, exMsg2] := by
  have h := insert_message_chunk_invariant [] "chat1" [exMsg, exMsg2] rfl
    (by decide)
  exact ⟨rfl, by simpa using h.2.1, h.2.2.2⟩

/-- C10: every `Message` built without an explicit timestamp carries the
single default computed once at class-definition time — two messages
constructed at different wall-clock times (`n1` vs `n2`) nevertheless get
equal timestamps, both the fixed `classTs`. -/
theorem message_default_timestamp_fixed (classTs n1 n2 : Nat)
    (sb sto cid body sb' sto' cid' body' : String) :
    (mkMessage classTs n1 sb sto cid body none).timestamp
      = (mkMessage classTs n2 sb' sto' cid' body' none).timestamp ∧
    (mkMessage classTs n1 sb sto cid body none).timestamp = classTs :=
  ⟨rfl, rfl⟩

/-! ## Drain-on-connect lemmas -/

theorem drainStep_ok (st : ServerState) (u : String) (m : Message) :
    drainStep st u m .ok
      = .ok ⟨st.reg, delete_one st.pending m, insert_message st.store m⟩ := rfl

theorem drainStep_other (st : ServerState) (u : String) (m : Message) :
    drainStep st u m .otherError = .ok st := rfl

theorem drainStep_chanErr (st : ServerState) (u : String) (m : Message)
    (o : SendOutcome) (ch : Nat) (ho : chanErr o = true)
    (hreg : lookupConn st.reg u = some ch) :
    drainStep st u m o = .ok { st with reg := eraseConn st.reg u } := by
  have hr := remove_connection_eq_erase st.reg u ch hreg
  cases o with
  | ok => simp [chanErr] at ho
  | otherError => simp [chanErr] at ho
  | disconnected => simp [drainStep, forward_message, hr]
  | runtimeError => simp [drainStep, forward_message, hr]

theorem drainLoop_cons_ok (u : String) (st st' : ServerState) (m : Message)
    (o : SendOutcome) (rest : List (Message × SendOutcome))
    (h : drainStep st u m o = .ok st') :
    drainLoop u st ((m, o) :: rest) = drainLoop u st' rest := by
  simp [drainLoop, h]

theorem drainLoop_cons_error (u : String) (st : ServerState) (m : Message)
    (o : SendOutcome) (rest : List (Message × SendOutcome))
    (e : String × ServerState) (h : drainStep st u m o = .error e) :
    drainLoop u st ((m, o) :: rest) = .error e := by
  simp [drainLoop, h]

theorem drainRegEffect_no_chanErr (r : Registry) (u : String)
    (pairs : List (Message × SendOutcome))
    (h : ∀ pr ∈ pairs, chanErr pr.2 = false) :
    drainRegEffect r u pairs = r := by
  induction pairs generalizing r with
  | nil => rfl
  | cons pr rest ih =>
    have h0 := h pr (by simp)
    simp only [drainRegEffect, List.foldl_cons, h0, Bool.false_eq_true, if_neg,
      not_false_eq_true]
    exact ih r (fun q hq => h q (by simp [hq]))

/-- A drain in which no send fails with a channel error completes without
touching the registry, deleting each delivered message from the queue and
appending it to the log. -/
theorem drainLoop_no_chanErr (u : String) (pairs : List (Message × SendOutcome))
    (st : ServerState) (h : ∀ pr ∈ pairs, chanErr pr.2 = false) :
    drainLoop u st pairs = .ok ⟨st.reg, drainPendingEffect st.pending pairs,
      drainStoreEffect st.store pairs⟩ := by
  induction pairs generalizing st with
  | nil => rfl
  | cons pr rest ih =>
    obtain ⟨m, o⟩ := pr
    have hrest : ∀ q ∈ rest, chanErr q.2 = false := fun q hq => h q (by simp [hq])
    cases o with
    | disconnected => simpa [chanErr] using h (m, .disconnected) (by simp)
    | runtimeError => simpa [chanErr] using h (m, .runtimeError) (by simp)
    | ok =>
      rw [drainLoop_cons_ok u st _ m .ok rest (drainStep_ok st u m)]
      rw [ih _ hrest]
      simp [drainPendingEffect, drainStoreEffect]
    | otherError =>
      rw [drainLoop_cons_ok u st st m .otherError rest (drainStep_other st u m)]
      rw [ih _ hrest]
      simp [drainPendingEffect, drainStoreEffect]

theorem drainRegEffect_cons (r : Registry) (u : String) (m : Message)
    (o : SendOutcome) (rest : List (Message × SendOutcome)) :
    drainRegEffect r u ((m, o) :: rest)
      = drainRegEffect (if chanErr o then (remove_connection r u).getD r else r)
          u rest := rfl

theorem drainPendingEffect_cons (p : List Message) (m : Message)
    (o : SendOutcome) (rest : List (Message × SendOutcome)) :
    drainPendingEffect p ((m, o) :: rest)
      = drainPendingEffect (if o = .ok then delete_one p m else p) rest := rfl

theorem drainStoreEffect_cons (s : List ChatChunk) (m : Message)
    (o : SendOutcome) (rest : List (Message × SendOutcome)) :
    drainStoreEffect s ((m, o) :: rest)
      = drainStoreEffect (if o = .ok then insert_message s m else s) rest := rfl

/-- A drain in which at most one send fails with a channel error completes,
with the net effects described by the three effect folds. -/
theorem drainLoop_le_one (u : String) (pairs : List (Message × SendOutcome))
    (st : ServerState) (ch : Nat) (hreg : lookupConn st.reg u = some ch)
    (h : pairs.countP (fun pr => chanErr pr.2) ≤ 1) :
    drainLoop u st pairs = .ok ⟨drainRegEffect st.reg u pairs,
      drainPendingEffect st.pending pairs, drainStoreEffect st.store pairs⟩ := by
  induction pairs generalizing st with
  | nil => rfl
  | cons pr rest ih =>
    obtain ⟨m, o⟩ := pr
    by_cases he : chanErr o = true
    · -- the single allowed channel error: the registry entry is evicted,
      -- everything after it must be error-free
      have hrest0 : rest.countP (fun pr => chanErr pr.2) = 0 := by
        have h' : rest.countP (fun pr => chanErr pr.2) + 1 ≤ 1 := by
          simpa [List.countP_cons, he] using h
        omega
      have hrest : ∀ q ∈ rest, chanErr q.2 = false := by
        intro q hq
        have := List.countP_eq_zero.mp hrest0 q hq
        simpa using this
      have hne : o ≠ .ok := by
        intro hcontra
        rw [hcontra] at he
        simp [chanErr] at he
      have hr : remove_connection st.reg u = some (eraseConn st.reg u) :=
        remove_connection_eq_erase st.reg u ch hreg
      rw [drainLoop_cons_ok u st _ m o rest (drainStep_chanErr st u m o ch he hreg)]
      rw [drainLoop_no_chanErr u rest _ hrest]
      rw [drainRegEffect_cons, drainPendingEffect_cons, drainStoreEffect_cons]
      rw [drainRegEffect_no_chanErr _ u rest hrest]
      simp [he, hne, hr]
    · have hrest : rest.countP (fun pr => chanErr pr.2) ≤ 1 := by
        simp [List.countP_cons, he] at h
        omega
      have hfalse : chanErr o = false := by simpa using he
      cases o with
      | disconnected => simp [chanErr] at hfalse
      | runtimeError => simp [chanErr] at hfalse
      | ok =>
        rw [drainLoop_cons_ok u st _ m .ok rest (drainStep_ok st u m)]
        rw [ih ⟨st.reg, delete_one st.pending m, insert_message st.store m⟩ hreg hrest]
        rw [drainRegEffect_cons, drainPendingEffect_cons, drainStoreEffect_cons]
        simp [chanErr]
      | otherError =>
        rw [drainLoop_cons_ok u st st m .otherError rest (drainStep_other st u m)]
        rw [ih st hreg hrest]
        rw [drainRegEffect_cons, drainPendingEffect_cons, drainStoreEffect_cons]
        simp [chanErr]

theorem drainPendingEffect_all_ok (p ms : List Message) :
    drainPendingEffect p (ms.zip (List.replicate ms.length .ok))
      = ms.foldl delete_one p := by
  induction ms generalizing p with
  | nil => rfl
  | cons m rest ih =>
    simp only [List.length_cons, List.replicate_succ, List.zip_cons_cons]
    simp only [drainPendingEffect, List.foldl_cons] at ih ⊢
    simp [ih]

theorem drainStoreEffect_all_ok (s : List ChatChunk) (ms : List Message) :
    drainStoreEffect s (ms.zip (List.replicate ms.length .ok))
      = insertAll s ms := by
  induction ms generalizing s with
  | nil => rfl
  | cons m rest ih =>
    simp only [List.length_cons, List.replicate_succ, List.zip_cons_cons]
    simp only [drainStoreEffect, insertAll, List.foldl_cons] at ih ⊢
    simp [ih]

theorem foldl_delete_one_cons_of_ne (a : Message) (p ms : List Message)
    (h : ∀ m ∈ ms, m ≠ a) :
    List.foldl delete_one (a :: p) ms = a :: List.foldl delete_one p ms := by
  induction ms generalizing p with
  | nil => rfl
  | cons m rest ih =>
    have hma : ¬a = m := fun he => (h m (by simp)) he.symm
    simp only [List.foldl_cons, delete_one, if_neg hma]
    exact ih _ (fun x hx => h x (by simp [hx]))

/-- Deleting (first-match) every element of `p.filter P` from `p`, in
order, leaves exactly the elements not satisfying `P`. -/
theorem foldl_delete_one_filter (P : Message → Bool) (p : List Message) :
    List.foldl delete_one p (p.filter P) = p.filter (fun m => !(P m)) := by
  induction p with
  | nil => rfl
  | cons a p ih =>
    by_cases hP : P a = true
    · rw [List.filter_cons_of_pos hP]
      have hd : delete_one (a :: p) a = p := by simp [delete_one]
      rw [List.foldl_cons, hd, ih, List.filter_cons_of_neg (by simp [hP])]
    · have hPf : ¬P a = true := hP
      rw [List.filter_cons_of_neg hPf]
      rw [foldl_delete_one_cons_of_ne a p _ ?hne, ih,
        List.filter_cons_of_pos (by simp [hP])]
      case hne =>
        intro m hm he
        subst he
        exact hPf (List.mem_filter.mp hm).2

/-- C2 counterexample: "bob" connects with three pending messages whose
send attempts would go channel-error, channel-error, success.  The second
channel error makes `remove_connection` pop an already-evicted registry
entry, raising an uncaught `KeyError` that aborts the drain and the
handler: the third message — whose forward would have succeeded — is never
attempted, nothing is removed from the queue, and nothing reaches the
conversation log, refuting "the drain attempts each pending message". -/
theorem drain_on_connect_cex :
    onConnect exStPending ("bob") 7 [.disconnected, .disconnected, .ok]
      = .error ("KeyError", ⟨[], [exMsg, exMsg2, exMsg3], []⟩) := by
  rfl

/-- C2 amended: provided at most one forward fails with a channel error,
the on-connect drain completes, attempting every snapshot message in
original send order: each delivered message is deleted from the queue and
appended to the conversation log, each failed one is left untouched
(`drainRegEffect`/`drainPendingEffect`/`drainStoreEffect` fold these
per-message effects in order).  When every forward succeeds, the pending
queue for the recipient ends empty — exactly the other recipients'
messages remain — and (for messages of a single fresh conversation)
reading that conversation's log returns the drained messages in order. -/
theorem drain_on_connect_correct (st : ServerState) (u : String) (ch : Nat)
    (os : List SendOutcome) (cid : String)
    (hk : os.length = (snapshotFor st u).length)
    (herr : os.countP chanErr ≤ 1) :
    onConnect st u ch os
      = .ok ⟨drainRegEffect (add_connection st.reg u ch) u
            ((snapshotFor st u).zip os),
          drainPendingEffect st.pending ((snapshotFor st u).zip os),
          drainStoreEffect st.store ((snapshotFor st u).zip os)⟩ ∧
    (os = List.replicate os.length .ok →
      drainPendingEffect st.pending ((snapshotFor st u).zip os)
        = st.pending.filter (fun m => !(m.sent_to == u)) ∧
      (drainPendingEffect st.pending ((snapshotFor st u).zip os)).filter
          (fun m => m.sent_to == u) = [] ∧
      ((∀ m ∈ snapshotFor st u, m.chat_id = cid) →
        convChunks st.store cid = [] →
        read_conv (drainStoreEffect st.store ((snapshotFor st u).zip os)) cid
          = snapshotFor st u)) := by
  have hzipall : os = List.replicate os.length .ok →
      (snapshotFor st u).zip os
        = (snapshotFor st u).zip
            (List.replicate (snapshotFor st u).length .ok) := by
    intro hok
    rw [← hk]
    conv_lhs => rw [hok]
  constructor
  · have hcnt : ((snapshotFor st u).zip os).countP (fun pr => chanErr pr.2) ≤ 1 := by
      have hmz : ((snapshotFor st u).zip os).map Prod.snd = os :=
        List.map_snd_zip _ _ hk.le
      calc ((snapshotFor st u).zip os).countP (fun pr => chanErr pr.2)
          = (((snapshotFor st u).zip os).map Prod.snd).countP chanErr := by
            rw [List.countP_map]
            rfl
        _ = os.countP chanErr := by rw [hmz]
        _ ≤ 1 := herr
    have hreg1 : lookupConn (add_connection st.reg u ch) u = some ch :=
      lookupConn_add_self st.reg u ch
    have h := drainLoop_le_one u ((snapshotFor st u).zip os)
      ⟨add_connection st.reg u ch, st.pending, st.store⟩ ch hreg1 hcnt
    simpa [onConnect, snapshotFor] using h
  · intro hok
    have hzip := hzipall hok
    constructor
    · rw [hzip, drainPendingEffect_all_ok]
      exact foldl_delete_one_filter (fun m => m.sent_to == u) st.pending
    constructor
    · rw [hzip, drainPendingEffect_all_ok]
      simp only [snapshotFor]
      rw [foldl_delete_one_filter (fun m => m.sent_to == u) st.pending]
      rw [List.filter_eq_nil_iff]
      intro a ha
      have hb := (List.mem_filter.mp ha).2
      simpa using hb
    · intro hall hcc
      rw [hzip, drainStoreEffect_all_ok]
      have hinv := chunkInv_insertAll st.store cid [] (snapshotFor st u) hall
        (by rw [hcc]; exact chunkInv_nil cid)
      rw [List.nil_append] at hinv
      obtain ⟨hids, _, _, _, hcontent⟩ := hinv
      rw [read_conv, sortChunks_eq_self _ (pairwise_le_of_ids_range _ hids),
        hcontent]

/-- Witness for the amended C2 theorem: one pending message for "bob",
one successful forward — the queue drains and the log receives the
message. -/
theorem drain_on_connect_correct_wit :
    onConnect ⟨[], [exMsg], []⟩ "bob" 5 [.ok]
      = .ok ⟨[("bob", 5)], [], [⟨"chat1", 0, [exMsg]⟩]⟩ ∧
    read_conv (drainStoreEffect []
        ((snapshotFor ⟨[], [exMsg], []⟩ "bob").zip [.ok])) "chat1"
      = snapshotFor ⟨[], [exMsg], []⟩ "bob" := by
  have h := drain_on_connect_correct ⟨[], [exMsg], []⟩ "bob" 5 [.ok] "chat1"
    rfl (by decide)
  refine ⟨?_, ((h.2 rfl).2.2) (by decide) rfl⟩
  rw [h.1]
  rfl

end MessagingServer
